import Mathlib

/-!
# Verification of the draw-language interpreter front end

A shallow embedding, in Lean 4, of the interpreter front end of the
`interpreter_exp` repository: the two lexical automata
(`TableDrivenDFA.cpp`, `HardCodedDFA.cpp`), the scanner
(`SimpleLexer.cpp`), the recursive-descent parser (`DrawLangParser.cpp`),
expression evaluation (`DrawLangAST.cpp` / `DrawLangAST.hpp`), the error
log (`ErrorLog.cpp` / `ErrorLog.hpp`) and the semantic analyzer
(`DrawLangSemantic.cpp`).

Modelling conventions:
* C++ `char` values are modelled as `Byte := Fin 256` (the source reads
  8-bit characters from strings/files).
* C++ `double` values are idealized: exact rationals (`ℚ`) where the code
  only stores parse-time constants, and real numbers (`ℝ`) in evaluation
  and the semantic analyzer, where `cos`, `sin` and `pow` occur.  All
  concrete inputs exercised by the theorems are small integers on which
  IEEE doubles compute exactly.
* The C++ `for` loop of `drawLoop` may diverge, so its embedding takes a
  fuel argument and returns `Option`; `some` means the source loop
  terminates with exactly the returned iteration values.
* Fallible lookups return `Option`; the `-1` error state of the automata
  becomes `Option ℕ`.
-/

namespace DrawLang

/-- An 8-bit character, the domain of the C++ `char`-based automata. -/
abbrev Byte := Fin 256

/-- Token categories, from `Token.hpp` (`enum class TokenType`). -/
inductive TokenType where
  | Keyword | Identifier | Literal | Operator | Punctuation
  | Comment | Eof | Invalid
  deriving DecidableEq, Repr

/-- Keyword identifiers, from `Token.hpp` (`enum class KeywordType`). -/
inductive KeywordType where
  | If | Else | While | For | From | To | Step | Draw | T | Return
  | Color | Scale | Rot | Origin | Size
  | L_bracket | R_bracket | Semico | Comma | Assign
  | Plus | Minus | Mul | Div | Power
  | Int | Float | Double | Bool | Func
  | Error_token | None
  deriving DecidableEq, Repr

/-! ## The two automaton encodings (`TableDrivenDFA.cpp`, `HardCodedDFA.cpp`) -/

/-- Character classes of `TableDrivenDFA.hpp` (`enum CharClass`),
    as the numeric key fragments used by `MK_KEY`:
    `CK_CHAR = 0 << 16`, `CK_LETTER = 1 << 16`, `CK_DIGIT = 2 << 16`. -/
def CK_CHAR : ℕ := 0
def CK_LETTER : ℕ := 65536
def CK_DIGIT : ℕ := 131072

/-- Model of `MK_KEY(from, c)`: `(from << 24) | c`.  Every key built by the table
    and every key queried by `move` has its low operand below `2^24`, so
    the bitwise or coincides with `from * 2^24 + c`. -/
def MK_KEY (fromState : ℕ) (c : ℕ) : ℕ := fromState * 16777216 + c

/-- Byte-range helpers matching the character tests of
    `HardCodedDFA::move` and `TableDrivenDFA::getCharClass`
    (letters include `_`). -/
def isLetterB (c : Byte) : Prop :=
  (97 ≤ c.val ∧ c.val ≤ 122) ∨ (65 ≤ c.val ∧ c.val ≤ 90) ∨ c.val = 95

instance (c : Byte) : Decidable (isLetterB c) := by
  unfold isLetterB; infer_instance

def isDigitB (c : Byte) : Prop := 48 ≤ c.val ∧ c.val ≤ 57

instance (c : Byte) : Decidable (isDigitB c) := by
  unfold isDigitB; infer_instance

/-- Model of `TableDrivenDFA::getCharClass`: letters (including `_`), digits,
    everything else verbatim. -/
def getCharClass (c : Byte) : ℕ :=
  if isLetterB c then CK_LETTER
  else if isDigitB c then CK_DIGIT
  else CK_CHAR

/-- The static transition table `TableDrivenDFA::transitions_`
    (each entry `DEF_TRANS(from, classOrChar, to)`), end marker omitted
    exactly as `transitionCount_` omits it. -/
def tableTransitions : List (ℕ × ℕ) :=
  [ (MK_KEY 0 CK_LETTER, 1), (MK_KEY 0 CK_DIGIT, 2),
    (MK_KEY 0 42, 4), (MK_KEY 0 47, 6), (MK_KEY 0 43, 8), (MK_KEY 0 45, 7),
    (MK_KEY 0 44, 9), (MK_KEY 0 59, 10), (MK_KEY 0 40, 11), (MK_KEY 0 41, 12),
    (MK_KEY 1 CK_LETTER, 1), (MK_KEY 1 CK_DIGIT, 1),
    (MK_KEY 2 CK_DIGIT, 2), (MK_KEY 2 46, 3), (MK_KEY 2 101, 14), (MK_KEY 2 69, 14),
    (MK_KEY 3 CK_DIGIT, 3), (MK_KEY 3 101, 14), (MK_KEY 3 69, 14),
    (MK_KEY 4 42, 5),
    (MK_KEY 6 47, 13),
    (MK_KEY 7 45, 13),
    (MK_KEY 14 43, 15), (MK_KEY 14 45, 15), (MK_KEY 14 CK_DIGIT, 16),
    (MK_KEY 15 CK_DIGIT, 16),
    (MK_KEY 16 CK_DIGIT, 16) ]

/-- Linear search of the transition table for an exact key, as the `for`
    loops of `TableDrivenDFA::move` do. -/
def lookupTrans (key : ℕ) : Option ℕ :=
  (tableTransitions.find? (fun e => e.1 = key)).map (·.2)

/-- Model of `TableDrivenDFA::move`: class key first, then (for letters/digits)
    the literal character key; no match is the C++ `-1`. -/
def tableMove (fromState : ℕ) (c : Byte) : Option ℕ :=
  let cc := getCharClass c
  let key := if cc = CK_CHAR then MK_KEY fromState c.val else MK_KEY fromState cc
  match lookupTrans key with
  | some s => some s
  | none =>
      if cc ≠ CK_CHAR then
        lookupTrans (MK_KEY fromState c.val)
      else
        none

/-- Model of `HardCodedDFA::move`: the directly-coded decision function.  The
    states `5, 8, 9, 10, 11, 12, 13` are the explicit `break` cases of
    the C++ `switch`; every state above 16 falls to the default `-1`. -/
def hardMove (state : ℕ) (c : Byte) : Option ℕ :=
  match state with
  | 0 =>
      if isLetterB c then some 1
      else if isDigitB c then some 2
      else if c.val = 42 then some 4
      else if c.val = 47 then some 6
      else if c.val = 43 then some 8
      else if c.val = 45 then some 7
      else if c.val = 44 then some 9
      else if c.val = 59 then some 10
      else if c.val = 40 then some 11
      else if c.val = 41 then some 12
      else none
  | 1 => if isLetterB c ∨ isDigitB c then some 1 else none
  | 2 =>
      if c.val = 46 then some 3
      else if isDigitB c then some 2
      else if c.val = 101 ∨ c.val = 69 then some 14
      else none
  | 3 =>
      if isDigitB c then some 3
      else if c.val = 101 ∨ c.val = 69 then some 14
      else none
  | 4 => if c.val = 42 then some 5 else none
  | 5 => none
  | 6 => if c.val = 47 then some 13 else none
  | 7 => if c.val = 45 then some 13 else none
  | 8 => none
  | 9 => none
  | 10 => none
  | 11 => none
  | 12 => none
  | 13 => none
  | 14 =>
      if c.val = 43 ∨ c.val = 45 then some 15
      else if isDigitB c then some 16
      else none
  | 15 => if isDigitB c then some 16 else none
  | 16 => if isDigitB c then some 16 else none
  | _ + 17 => none

/-- The final-state table `TableDrivenDFA::finalStates_`, searched
    linearly by `TableDrivenDFA::stateIsFinal`. -/
def tableFinalStates : List (ℕ × TokenType) :=
  [ (1, .Identifier), (2, .Literal), (3, .Literal),
    (4, .Operator), (5, .Operator), (6, .Operator), (7, .Operator),
    (8, .Operator), (9, .Punctuation), (10, .Punctuation),
    (11, .Punctuation), (12, .Punctuation), (13, .Comment),
    (16, .Literal) ]

/-- Model of `TableDrivenDFA::stateIsFinal`. -/
def tableStateIsFinal (state : ℕ) : TokenType :=
  ((tableFinalStates.find? (fun e => e.1 = state)).map (·.2)).getD .Invalid

/-- Model of `HardCodedDFA::stateIsFinal`.  States `0`, `14`, `15` and everything
    above 16 are the C++ `default: return TokenType::Invalid`. -/
def hardStateIsFinal (state : ℕ) : TokenType :=
  match state with
  | 0 => .Invalid
  | 1 => .Identifier
  | 2 => .Literal
  | 3 => .Literal
  | 4 => .Operator
  | 5 => .Operator
  | 6 => .Operator
  | 7 => .Operator
  | 8 => .Operator
  | 9 => .Punctuation
  | 10 => .Punctuation
  | 11 => .Punctuation
  | 12 => .Punctuation
  | 13 => .Comment
  | 14 => .Invalid
  | 15 => .Invalid
  | 16 => .Literal
  | _ + 17 => .Invalid

/-- Model of `DFAStateType`, from `dfa.hpp`. -/
inductive DFAStateType where
  | Start | Accepting | Rejecting | Error
  deriving DecidableEq, Repr

/-- The classification computed by `updateStateInfo` (identical text in
    both implementations), parameterized by the `stateIsFinal` used.
    The current state is `none` for the C++ `-1` error state. -/
def classifyState (stateIsFinal : ℕ → TokenType) (cur : Option ℕ) : DFAStateType :=
  match cur with
  | none => .Error
  | some 0 => .Start
  | some s => if stateIsFinal s ≠ .Invalid then .Accepting else .Rejecting

/-- Run state of either automaton: current state (`none` = the C++ `-1`)
    plus the processed input (`processedInput_`). -/
structure DFARun where
  cur : Option ℕ
  processed : List Byte
  deriving DecidableEq, Repr

/-- Model of `reset()`: state 0, empty lexeme. -/
def DFARun.reset : DFARun := ⟨some 0, []⟩

/-- Model of `feed(c)` of either implementation, parameterized by its `move`:
    returns the C++ `bool` and the updated run. -/
def feedD (move : ℕ → Byte → Option ℕ) (r : DFARun) (c : Byte) : Bool × DFARun :=
  match r.cur with
  | none => (false, r)
  | some s =>
      match move s c with
      | none => (false, r)
      | some s' => (true, ⟨some s', r.processed ++ [c]⟩)

/-- Feeding a whole byte sequence from a given run, collecting each
    `feed` result in order. -/
def feedAll (move : ℕ → Byte → Option ℕ) (r : DFARun) : List Byte → List Bool × DFARun
  | [] => ([], r)
  | c :: cs =>
      let (b, r') := feedD move r c
      let (bs, r'') := feedAll move r' cs
      (b :: bs, r'')

/-- Model of `isAccepting()` as computed from `updateStateInfo`. -/
def isAcceptingD (stateIsFinal : ℕ → TokenType) (r : DFARun) : Bool :=
  classifyState stateIsFinal r.cur = .Accepting

/-- Model of `getAcceptedTokenType()`. -/
def acceptedTokenTypeD (stateIsFinal : ℕ → TokenType) (r : DFARun) : TokenType :=
  if isAcceptingD stateIsFinal r then
    (match r.cur with
     | some s => stateIsFinal s
     | none => .Invalid)
  else .Invalid

/-! ### Equivalence of the two `move` functions -/

/-- A literal-character key misses the whole transition table whenever
    the character is none of the literal characters wired to the given
    state. -/
theorem lookupTrans_lit_none (s c : ℕ) (hc : c < 256)
    (h0 : s = 0 → ¬(c = 42 ∨ c = 47 ∨ c = 43 ∨ c = 45 ∨ c = 44 ∨ c = 59 ∨ c = 40 ∨ c = 41))
    (h2 : s = 2 → ¬(c = 46 ∨ c = 101 ∨ c = 69))
    (h3 : s = 3 → ¬(c = 101 ∨ c = 69))
    (h4 : s = 4 → c ≠ 42)
    (h6 : s = 6 → c ≠ 47)
    (h7 : s = 7 → c ≠ 45)
    (h14 : s = 14 → ¬(c = 43 ∨ c = 45)) :
    lookupTrans (MK_KEY s c) = none := by
  unfold lookupTrans
  rw [Option.map_eq_none', List.find?_eq_none]
  intro p hp
  fin_cases hp <;>
    simp only [MK_KEY, CK_LETTER, CK_DIGIT, decide_eq_true_eq] <;>
    omega

/-- Any key whose state component exceeds 16 misses the table. -/
theorem lookupTrans_large_none (s c : ℕ) (hs : 17 ≤ s) (hc : c < 16777216) :
    lookupTrans (MK_KEY s c) = none := by
  unfold lookupTrans
  rw [Option.map_eq_none', List.find?_eq_none]
  intro p hp
  fin_cases hp <;>
    simp only [MK_KEY, CK_LETTER, CK_DIGIT, decide_eq_true_eq] <;>
    omega

theorem getCharClass_letter {c : Byte} (h : isLetterB c) :
    getCharClass c = CK_LETTER := by
  unfold getCharClass; rw [if_pos h]

theorem getCharClass_digit {c : Byte} (h : isDigitB c) :
    getCharClass c = CK_DIGIT := by
  have : ¬ isLetterB c := by unfold isLetterB isDigitB at *; omega
  unfold getCharClass; rw [if_neg this, if_pos h]

theorem getCharClass_other {c : Byte} (h1 : ¬ isLetterB c) (h2 : ¬ isDigitB c) :
    getCharClass c = CK_CHAR := by
  unfold getCharClass; rw [if_neg h1, if_neg h2]

/-- The class-keyed rows of the table, evaluated for every state. -/
theorem lookupTrans_letter_key : ∀ s ≤ 16,
    lookupTrans (MK_KEY s CK_LETTER) =
      if s = 0 ∨ s = 1 then some 1 else none := by decide

theorem lookupTrans_digit_key : ∀ s ≤ 16,
    lookupTrans (MK_KEY s CK_DIGIT) =
      if s = 0 then some 2
      else if s = 1 then some 1
      else if s = 2 then some 2
      else if s = 3 then some 3
      else if s = 14 ∨ s = 15 ∨ s = 16 then some 16
      else none := by decide

/-- Equivalence on letters. -/
theorem move_eq_letter (s : ℕ) (hs : s ≤ 16) (c : Byte) (hL : isLetterB c) :
    tableMove s c = hardMove s c := by
  unfold isLetterB at hL
  by_cases he : c.val = 101
  · rw [show c = (101 : Byte) from Fin.ext (by rw [he]; decide)]
    interval_cases s <;> decide
  by_cases hE : c.val = 69
  · rw [show c = (69 : Byte) from Fin.ext (by rw [hE]; decide)]
    interval_cases s <;> decide
  have hL' : isLetterB c := hL
  have hnd : ¬ isDigitB c := by unfold isDigitB; omega
  have hclass : getCharClass c = CK_LETTER := getCharClass_letter hL'
  have hfall : lookupTrans (MK_KEY s c.val) = none := by
    apply lookupTrans_lit_none s c.val c.isLt <;> (intro hs'; omega)
  have hlk := lookupTrans_letter_key s hs
  have hne : c.val ≠ 46 ∧ c.val ≠ 42 ∧ c.val ≠ 47 ∧ c.val ≠ 43 ∧ c.val ≠ 45 ∧
      c.val ≠ 44 ∧ c.val ≠ 59 ∧ c.val ≠ 40 ∧ c.val ≠ 41 := by omega
  obtain ⟨hq1, hq2, hq3, hq4, hq5, hq6, hq7, hq8, hq9⟩ := hne
  unfold tableMove
  rw [hclass]
  interval_cases s <;>
    simp_all [hardMove, CK_LETTER, CK_CHAR]

/-- Equivalence on digits. -/
theorem move_eq_digit (s : ℕ) (hs : s ≤ 16) (c : Byte) (hD : isDigitB c) :
    tableMove s c = hardMove s c := by
  have hD' := hD
  unfold isDigitB at hD
  have hnl : ¬ isLetterB c := by unfold isLetterB; omega
  have hclass : getCharClass c = CK_DIGIT := getCharClass_digit hD'
  have hfall : lookupTrans (MK_KEY s c.val) = none := by
    apply lookupTrans_lit_none s c.val c.isLt <;> (intro hs'; omega)
  have hlk := lookupTrans_digit_key s hs
  have hne : c.val ≠ 46 ∧ c.val ≠ 42 ∧ c.val ≠ 47 ∧ c.val ≠ 43 ∧ c.val ≠ 45 ∧
      c.val ≠ 44 ∧ c.val ≠ 59 ∧ c.val ≠ 40 ∧ c.val ≠ 41 ∧ c.val ≠ 101 ∧
      c.val ≠ 69 := by omega
  obtain ⟨hq1, hq2, hq3, hq4, hq5, hq6, hq7, hq8, hq9, hq10, hq11⟩ := hne
  unfold tableMove
  rw [hclass]
  interval_cases s <;>
    simp_all [hardMove, CK_DIGIT, CK_CHAR]

/-- Equivalence on all remaining characters. -/
theorem move_eq_other (s : ℕ) (hs : s ≤ 16) (c : Byte)
    (hnl : ¬ isLetterB c) (hnd : ¬ isDigitB c) :
    tableMove s c = hardMove s c := by
  have hnl' := hnl
  have hnd' := hnd
  unfold isLetterB at hnl
  unfold isDigitB at hnd
  by_cases h42 : c.val = 42
  · rw [show c = (42 : Byte) from Fin.ext (by rw [h42]; decide)]
    interval_cases s <;> decide
  by_cases h47 : c.val = 47
  · rw [show c = (47 : Byte) from Fin.ext (by rw [h47]; decide)]
    interval_cases s <;> decide
  by_cases h43 : c.val = 43
  · rw [show c = (43 : Byte) from Fin.ext (by rw [h43]; decide)]
    interval_cases s <;> decide
  by_cases h45 : c.val = 45
  · rw [show c = (45 : Byte) from Fin.ext (by rw [h45]; decide)]
    interval_cases s <;> decide
  by_cases h44 : c.val = 44
  · rw [show c = (44 : Byte) from Fin.ext (by rw [h44]; decide)]
    interval_cases s <;> decide
  by_cases h59 : c.val = 59
  · rw [show c = (59 : Byte) from Fin.ext (by rw [h59]; decide)]
    interval_cases s <;> decide
  by_cases h40 : c.val = 40
  · rw [show c = (40 : Byte) from Fin.ext (by rw [h40]; decide)]
    interval_cases s <;> decide
  by_cases h41 : c.val = 41
  · rw [show c = (41 : Byte) from Fin.ext (by rw [h41]; decide)]
    interval_cases s <;> decide
  by_cases h46 : c.val = 46
  · rw [show c = (46 : Byte) from Fin.ext (by rw [h46]; decide)]
    interval_cases s <;> decide
  have h101 : c.val ≠ 101 := by omega
  have h69 : c.val ≠ 69 := by omega
  have hclass : getCharClass c = CK_CHAR := getCharClass_other hnl' hnd'
  have hfall : lookupTrans (MK_KEY s c.val) = none := by
    apply lookupTrans_lit_none s c.val c.isLt <;> (intro hs'; omega)
  unfold tableMove
  rw [hclass]
  interval_cases s <;>
    simp_all [hardMove, CK_CHAR]

/-- The two `move` encodings agree on every state and every character:
    `TableDrivenDFA::move` and `HardCodedDFA::move` compute the same
    partial transition function. -/
theorem tableMove_eq_hardMove (s : ℕ) (c : Byte) :
    tableMove s c = hardMove s c := by
  rcases Nat.lt_or_ge s 17 with hs | hs
  · have hs' : s ≤ 16 := by omega
    by_cases hL : isLetterB c
    · exact move_eq_letter s hs' c hL
    by_cases hD : isDigitB c
    · exact move_eq_digit s hs' c hD
    exact move_eq_other s hs' c hL hD
  · obtain ⟨n, rfl⟩ : ∃ n, s = n + 17 := ⟨s - 17, by omega⟩
    have h1 : tableMove (n + 17) c = none := by
      unfold tableMove
      have k1 : lookupTrans (MK_KEY (n + 17) (getCharClass c)) = none :=
        lookupTrans_large_none _ _ (by omega)
          (by unfold getCharClass; split_ifs <;> decide)
      have k2 : lookupTrans (MK_KEY (n + 17) c.val) = none :=
        lookupTrans_large_none _ _ (by omega) (by have := c.isLt; omega)
      by_cases hcc : getCharClass c = CK_CHAR <;> simp_all
    have h2 : hardMove (n + 17) c = none := rfl
    rw [h1, h2]

/-- The two `stateIsFinal` encodings agree on every state. -/
theorem tableStateIsFinal_eq_hard (s : ℕ) :
    tableStateIsFinal s = hardStateIsFinal s := by
  rcases Nat.lt_or_ge s 17 with hs | hs
  · have hs' : s ≤ 16 := by omega
    revert hs'
    revert s
    decide
  · obtain ⟨n, rfl⟩ : ∃ n, s = n + 17 := ⟨s - 17, by omega⟩
    have h1 : tableStateIsFinal (n + 17) = .Invalid := by
      unfold tableStateIsFinal
      rw [show (tableFinalStates.find? (fun e => e.1 = n + 17)) = none by
        rw [List.find?_eq_none]
        intro p hp
        fin_cases hp <;> simp only [decide_eq_true_eq] <;> omega]
      rfl
    rw [h1]; rfl

/-! ## Scanner (`SimpleLexer.cpp`) -/

/-- Model of `SimpleLexer::isSpace`: ASCII whitespace only (the guard
    `c < 0 || c > 0x7e` rejects high bytes). -/
def isSpaceB (c : Byte) : Bool :=
  decide (c.val = 32 ∨ (9 ≤ c.val ∧ c.val ≤ 13))

/-- Model of `SimpleLexer::toUpper` on one byte (`std::toupper`, ASCII). -/
def toUpperB (c : Byte) : Byte :=
  if h : 97 ≤ c.val ∧ c.val ≤ 122 then ⟨c.val - 32, by omega⟩ else c

def toUpperL (l : List Byte) : List Byte := l.map toUpperB

/-- Byte string of an ASCII string literal (used for lexemes and the
    symbol table). -/
def bs (s : String) : List Byte :=
  s.toList.map fun ch => ⟨ch.toNat % 256, Nat.mod_lt _ (by omega)⟩

/-- A scanner token.  The payload variant of `Token` (`Token.hpp`) is
    flattened: `kw` is the `KeywordType` payload of keyword, operator and
    punctuation tokens, `litFloat` the `LiteralType` payload of literal
    tokens (`true` = `Float`, `false` = `Integer`); the literal value
    string equals the lexeme. -/
structure Token where
  type : TokenType
  lexeme : List Byte
  kw : KeywordType := .None
  litFloat : Bool := false
  deriving DecidableEq, Repr

/-- The `Eof` token produced at end of input. -/
def Token.eof : Token := ⟨.Eof, [], .None, false⟩

/-- One entry of the scanner's predefined symbol table: token type and
    keyword id (the constant value / function pointer columns live in
    the parser model). -/
structure SymEntry where
  type : TokenType
  kw : KeywordType
  deriving DecidableEq, Repr

/-- Model of `predefinedSymbols` plus the `SIZE` aliases added by
    `initSymbolTable`, keyed by upper-case name. -/
def symbolTable : List (List Byte × SymEntry) :=
  [ (bs "PI", ⟨.Literal, .None⟩), (bs "E", ⟨.Literal, .None⟩),
    (bs "XD", ⟨.Literal, .None⟩), (bs "WXQ", ⟨.Literal, .None⟩),
    (bs "T", ⟨.Keyword, .T⟩),
    (bs "SIN", ⟨.Keyword, .Func⟩), (bs "COS", ⟨.Keyword, .Func⟩),
    (bs "TAN", ⟨.Keyword, .Func⟩), (bs "LN", ⟨.Keyword, .Func⟩),
    (bs "EXP", ⟨.Keyword, .Func⟩), (bs "SQRT", ⟨.Keyword, .Func⟩),
    (bs "_AYY_", ⟨.Keyword, .Func⟩),
    (bs "ORIGIN", ⟨.Keyword, .Origin⟩), (bs "SCALE", ⟨.Keyword, .Scale⟩),
    (bs "ROT", ⟨.Keyword, .Rot⟩), (bs "IS", ⟨.Keyword, .Assign⟩),
    (bs "FOR", ⟨.Keyword, .For⟩), (bs "FROM", ⟨.Keyword, .From⟩),
    (bs "TO", ⟨.Keyword, .To⟩), (bs "STEP", ⟨.Keyword, .Step⟩),
    (bs "DRAW", ⟨.Keyword, .Draw⟩), (bs "COLOR", ⟨.Keyword, .Color⟩),
    (bs "SIZE", ⟨.Keyword, .Size⟩),
    (bs "PIXELSIZE", ⟨.Keyword, .Size⟩), (bs "PIXSIZE", ⟨.Keyword, .Size⟩),
    (bs "PIX", ⟨.Keyword, .Size⟩) ]

def lookupSymbol (upper : List Byte) : Option SymEntry :=
  (symbolTable.find? (fun e => e.1 = upper)).map (·.2)

/-- Model of `getOperatorKeyword`. -/
def getOperatorKeyword (op : List Byte) : KeywordType :=
  if op = bs "+" then .Plus
  else if op = bs "-" then .Minus
  else if op = bs "*" then .Mul
  else if op = bs "/" then .Div
  else if op = bs "**" then .Power
  else .None

/-- Model of `getPunctuationKeyword`. -/
def getPunctuationKeyword (p : List Byte) : KeywordType :=
  if p = bs "(" then .L_bracket
  else if p = bs ")" then .R_bracket
  else if p = bs ";" then .Semico
  else if p = bs "," then .Comma
  else .None

/-- Model of `SimpleLexer::scanMove`'s scanning loop, after the DFA reset: feed
    characters while transitions succeed; on the first failure after a
    nonempty lexeme push the rejecting character back (`ungetChar` is a
    no-op on `'\n'`).  Returns (final DFA run, lexeme, remaining input). -/
def scanMoveAux (move : ℕ → Byte → Option ℕ) (r : DFARun) :
    List Byte → DFARun × List Byte × List Byte
  | [] => (r, [], [])
  | c :: cs =>
      match feedD move r c with
      | (true, r') =>
          let (r'', lex, rest) := scanMoveAux move r' cs
          (r'', c :: lex, rest)
      | (false, _) => (r, [], if c.val = 10 then cs else c :: cs)

/-- Model of `SimpleLexer::scanMove`: when the very first character is rejected it
    is itself consumed as the pending lexeme. -/
def scanMove (move : ℕ → Byte → Option ℕ) (input : List Byte) :
    DFARun × List Byte × List Byte :=
  match scanMoveAux move .reset input with
  | (r, [], _) =>
      match input with
      | c :: cs => (r, [c], cs)
      | [] => (r, [], [])
  | (r, lex, rest) => (r, lex, rest)

/-- Model of `SimpleLexer::skipToEndOfLine`: consume up to and including the next
    `'\n'`, `'\r'` or end of input. -/
def skipToEol : List Byte → List Byte
  | [] => []
  | c :: cs => if c.val = 10 ∨ c.val = 13 then cs else skipToEol cs

/-- Model of `SimpleLexer::postProcess`, token-building part: classify an
    accepted lexeme.  The `Comment` case is handled by the caller
    (`tokenizeAux`), mirroring the `nullptr`-and-retry protocol. -/
def classifyLexeme (tt : TokenType) (lex : List Byte) : Token :=
  match tt with
  | .Identifier =>
      let upper := toUpperL lex
      match lookupSymbol upper with
      | some e =>
          if e.type = .Literal then ⟨.Literal, lex, .None, true⟩
          else if e.kw = .Func then ⟨.Keyword, lex, .Func, false⟩
          else if e.kw ≠ .None then ⟨.Keyword, lex, e.kw, false⟩
          else ⟨.Identifier, lex, .None, false⟩
      | none => ⟨.Identifier, lex, .None, false⟩
  | .Literal =>
      let isFloat := lex.any (fun c => c.val = 46 ∨ c.val = 101 ∨ c.val = 69)
      ⟨.Literal, lex, .None, isFloat⟩
  | .Operator => ⟨.Operator, lex, getOperatorKeyword lex, false⟩
  | .Punctuation => ⟨.Punctuation, lex, getPunctuationKeyword lex, false⟩
  | _ => ⟨.Invalid, lex, .None, false⟩

/-- Model of `SimpleLexer::nextToken` iterated over the whole input
    (`tokenizeAll`): skip whitespace, maximal-munch one lexeme, classify;
    comments discard to end of line and retry; end of input yields one
    `Eof` token.  `fuel` bounds the iteration (any value above the input
    length is enough). -/
def tokenizeAux (move : ℕ → Byte → Option ℕ) (stateIsFinal : ℕ → TokenType) :
    ℕ → List Byte → List Token
  | 0, _ => []
  | fuel + 1, input =>
      let rest := input.dropWhile isSpaceB
      match rest with
      | [] => [Token.eof]
      | _ :: _ =>
          let (r, lex, rest') := scanMove move rest
          let tt := acceptedTokenTypeD stateIsFinal r
          if tt = .Comment then
            tokenizeAux move stateIsFinal fuel (skipToEol rest')
          else
            classifyLexeme tt lex :: tokenizeAux move stateIsFinal fuel rest'

/-- The table-driven scanner pipeline on a byte string. -/
def tokenizeTable (input : List Byte) : List Token :=
  tokenizeAux tableMove tableStateIsFinal (input.length + 1) input

/-- The directly-coded scanner pipeline on a byte string. -/
def tokenizeHard (input : List Byte) : List Token :=
  tokenizeAux hardMove hardStateIsFinal (input.length + 1) input

/-! ## AST (`DrawLangAST.hpp`) and parser (`DrawLangParser.cpp`) -/

/-- The bound unary math functions of `makeFuncNode`
    (`MathFunc` pointers; `LOG` binds `std::log10`). -/
inductive MathFn where
  | sin | cos | tan | ln | exp | sqrt | abs | asin | acos | atan
  | log10 | ceil | floor
  deriving DecidableEq, Repr

/-- Expression nodes.  `ConstExprNode` stores the `double` computed at
    parse time, idealized as an exact rational; `ParamExprNode` reads the
    shared loop cell; a `FuncCallExprNode` holds an optional function
    pointer (`none` = the C++ null pointer, evaluating to `0`). -/
inductive Expr where
  | const (v : ℚ)
  | param
  | binary (op : KeywordType) (l r : Expr)
  | unary (op : KeywordType) (e : Expr)
  | funcCall (f : Option MathFn) (arg : Expr)
  deriving DecidableEq, Repr

/-- Statement nodes.  `SizeStmtNode` owns one or two expression
    children; `ColorStmtNode` is either the RGB form or a color name. -/
inductive Stmt where
  | origin (x y : Expr)
  | scale (sx sy : Expr)
  | rot (a : Expr)
  | forDraw (start stop step x y : Expr)
  | colorRGB (r g b : Expr)
  | colorName (name : List Byte)
  | size (s : Expr) (second : Option Expr)
  deriving DecidableEq, Repr

def isDigByte (c : Byte) : Bool := decide (48 ≤ c.val ∧ c.val ≤ 57)

def digitsVal (l : List Byte) : ℕ := l.foldl (fun a c => a * 10 + (c.val - 48)) 0

/-- Model of `std::stod`, idealized to exact rational arithmetic, on the numeric
    lexemes produced by the automata (`digits [. digits] [eE [+-] digits]`);
    non-numeric input yields `0` (the C++ catch-all sets the value to 0). -/
def parseLit (l : List Byte) : ℚ :=
  let ds := l.takeWhile isDigByte
  let r1 := l.dropWhile isDigByte
  let ipart : ℚ := (digitsVal ds : ℕ)
  let fr :=
    match r1 with
    | c :: cs =>
        if c.val = 46 then
          let fs := cs.takeWhile isDigByte
          (((digitsVal fs : ℕ) : ℚ) / ((10 : ℚ) ^ fs.length), cs.dropWhile isDigByte)
        else ((0 : ℚ), r1)
    | [] => ((0 : ℚ), r1)
  let expFactor : ℚ :=
    match fr.2 with
    | c :: cs =>
        if c.val = 101 ∨ c.val = 69 then
          match cs with
          | d :: ds' =>
              if d.val = 45 then (10 : ℚ) ^ (-(digitsVal (ds'.takeWhile isDigByte) : ℤ))
              else if d.val = 43 then (10 : ℚ) ^ (digitsVal (ds'.takeWhile isDigByte) : ℤ)
              else (10 : ℚ) ^ (digitsVal (cs.takeWhile isDigByte) : ℤ)
          | [] => 1
        else 1
    | [] => 1
  (ipart + fr.1) * expFactor

/-- The parse-time value of the named constant `PI`
    (`3.1415926535897932` in `makeExprNode`). -/
def piConst : ℚ := 3.1415926535897932

/-- The parse-time value of the named constant `E`
    (`2.7182818284590452` in `makeExprNode`). -/
def eConst : ℚ := 2.7182818284590452

/-- Model of `DrawLangParser::makeExprNode(token)`: literal tokens check the
    named constants `PI`, `E`, `XD`, `WXQ` before `std::stod`; `T` tokens
    become the parameter node; identifier tokens resolve `PI`/`E` and
    default to `0`. -/
def makeExprNode (t : Token) : Expr :=
  if t.type = .Literal then
    let upper := toUpperL t.lexeme
    Expr.const
      (if upper = bs "PI" then piConst
       else if upper = bs "E" then eConst
       else if upper = bs "XD" then 10701
       else if upper = bs "WXQ" then 5.28
       else parseLit t.lexeme)
  else if t.type = .Keyword ∧ t.kw = .T then Expr.param
  else if t.type = .Identifier then
    let upper := toUpperL t.lexeme
    Expr.const
      (if upper = bs "PI" then piConst
       else if upper = bs "E" then eConst
       else 0)
  else Expr.const 0

/-- Model of `DrawLangParser::makeFuncNode`'s function-pointer lookup by
    upper-cased name; anything else (including `_AYY_`) stays null. -/
def makeFuncNode (name : List Byte) : Option MathFn :=
  let upper := toUpperL name
  if upper = bs "SIN" then some .sin
  else if upper = bs "COS" then some .cos
  else if upper = bs "TAN" then some .tan
  else if upper = bs "LN" then some .ln
  else if upper = bs "EXP" then some .exp
  else if upper = bs "SQRT" then some .sqrt
  else if upper = bs "ABS" then some .abs
  else if upper = bs "ASIN" then some .asin
  else if upper = bs "ACOS" then some .acos
  else if upper = bs "ATAN" then some .atan
  else if upper = bs "LOG" then some .log10
  else if upper = bs "CEIL" then some .ceil
  else if upper = bs "FLOOR" then some .floor
  else none

/-- Parser state: the unread token stream (head = `currentToken_`) and
    the number of recorded syntax errors (`errors_.size()`; every
    recorded error also reaches `ErrorLog::errorAt`). -/
structure PState where
  toks : List Token
  errs : ℕ
  deriving DecidableEq, Repr

/-- Model of `currentToken_`; an exhausted stream keeps returning `Eof`. -/
def curTok (st : PState) : Token := st.toks.headD Token.eof

/-- The skipping loop inside `fetchToken`: comments are skipped,
    invalid tokens are discarded with a recorded error (`syntaxError(1)`). -/
def skipBad : List Token → ℕ → List Token × ℕ
  | [], e => ([], e)
  | t :: ts, e =>
      if t.type = .Comment then skipBad ts e
      else if t.type = .Invalid then skipBad ts (e + 1)
      else (t :: ts, e)

/-- Model of `fetchToken()`: advance past the current token, then skip
    comments/invalids. -/
def fetchP (st : PState) : PState :=
  match st.toks with
  | [] => st
  | _ :: rest =>
      let (ts, e) := skipBad rest st.errs
      ⟨ts, e⟩

/-- The initial `fetchToken()` performed by `parse()` before descending. -/
def initP (toks : List Token) : PState :=
  let (ts, e) := skipBad toks 0
  ⟨ts, e⟩

/-- Model of `checkToken`: keyword, operator and punctuation tokens match by
    their keyword payload. -/
def checkT (st : PState) (k : KeywordType) : Bool :=
  let t := curTok st
  decide ((t.type = .Keyword ∨ t.type = .Operator ∨ t.type = .Punctuation) ∧ t.kw = k)

/-- The discard-and-resync loop of `matchToken` (with
    `recoverFromErrors` set): record a syntax error, fetch, stop on a
    match (consuming it) or on `Eof`. -/
def recoverP : ℕ → KeywordType → PState → PState
  | 0, _, st => st
  | fuel + 1, expected, st =>
      let st1 := fetchP { st with errs := st.errs + 1 }
      if checkT st1 expected then fetchP st1
      else if (curTok st1).type = .Eof then st1
      else recoverP fuel expected st1

/-- Model of `matchToken(expected)`. -/
def matchTokenP (expected : KeywordType) (st : PState) : PState :=
  if checkT st expected then fetchP st
  else recoverP (st.toks.length + 1) expected st

mutual

/-- Model of `expression()`: `term { (+|-) term }`, left-associative. -/
def expressionP : ℕ → PState → Expr × PState
  | 0, st => (.const 0, st)
  | f + 1, st =>
      let (l, st1) := termP f st
      exprLoopP f l st1

def exprLoopP : ℕ → Expr → PState → Expr × PState
  | 0, l, st => (l, st)
  | f + 1, l, st =>
      if checkT st .Plus || checkT st .Minus then
        let op := (curTok st).kw
        let st1 := matchTokenP op st
        let (r, st2) := termP f st1
        exprLoopP f (.binary op l r) st2
      else (l, st)

/-- Model of `term()`: `factor { (*|/) factor }`, left-associative. -/
def termP : ℕ → PState → Expr × PState
  | 0, st => (.const 0, st)
  | f + 1, st =>
      let (l, st1) := factorP f st
      termLoopP f l st1

def termLoopP : ℕ → Expr → PState → Expr × PState
  | 0, l, st => (l, st)
  | f + 1, l, st =>
      if checkT st .Mul || checkT st .Div then
        let op := (curTok st).kw
        let st1 := matchTokenP op st
        let (r, st2) := factorP f st1
        termLoopP f (.binary op l r) st2
      else (l, st)

/-- Model of `factor()`: optional unary sign, right-recursive. -/
def factorP : ℕ → PState → Expr × PState
  | 0, st => (.const 0, st)
  | f + 1, st =>
      if checkT st .Plus then
        let st1 := matchTokenP .Plus st
        let (e, st2) := factorP f st1
        (.unary .Plus e, st2)
      else if checkT st .Minus then
        let st1 := matchTokenP .Minus st
        let (e, st2) := factorP f st1
        (.unary .Minus e, st2)
      else componentP f st

/-- Model of `component()`: `atom [** component]`, right-associative. -/
def componentP : ℕ → PState → Expr × PState
  | 0, st => (.const 0, st)
  | f + 1, st =>
      let (l, st1) := atomP f st
      if checkT st1 .Power then
        let st2 := matchTokenP .Power st1
        let (r, st3) := componentP f st2
        (.binary .Power l r, st3)
      else (l, st1)

/-- Model of `atom()`: literal, `T`, function call, parenthesized expression,
    identifier (re-inspected as call or constant), otherwise a recorded
    syntax error and a zero constant without consuming the token. -/
def atomP : ℕ → PState → Expr × PState
  | 0, st => (.const 0, st)
  | f + 1, st =>
      let t := curTok st
      if t.type = .Literal then (makeExprNode t, fetchP st)
      else if checkT st .T then (.param, fetchP st)
      else if checkT st .Func then
        let st1 := fetchP st
        let st2 := matchTokenP .L_bracket st1
        let (arg, st3) := expressionP f st2
        let st4 := matchTokenP .R_bracket st3
        (.funcCall (makeFuncNode t.lexeme) arg, st4)
      else if checkT st .L_bracket then
        let st1 := matchTokenP .L_bracket st
        let (e, st2) := expressionP f st1
        let st3 := matchTokenP .R_bracket st2
        (e, st3)
      else if t.type = .Identifier then
        let st1 := fetchP st
        if checkT st1 .L_bracket then
          let st2 := matchTokenP .L_bracket st1
          let (arg, st3) := expressionP f st2
          let st4 := matchTokenP .R_bracket st3
          (.funcCall (makeFuncNode t.lexeme) arg, st4)
        else (makeExprNode t, st1)
      else
        (.const 0, { st with errs := st.errs + 1 })

end

/-- Model of `originStatement()`. -/
def originStatementP (f : ℕ) (st : PState) : Stmt × PState :=
  let st1 := matchTokenP .Origin st
  let st2 := matchTokenP .Assign st1
  let st3 := matchTokenP .L_bracket st2
  let (x, st4) := expressionP f st3
  let st5 := matchTokenP .Comma st4
  let (y, st6) := expressionP f st5
  let st7 := matchTokenP .R_bracket st6
  (.origin x y, st7)

/-- Model of `scaleStatement()`. -/
def scaleStatementP (f : ℕ) (st : PState) : Stmt × PState :=
  let st1 := matchTokenP .Scale st
  let st2 := matchTokenP .Assign st1
  let st3 := matchTokenP .L_bracket st2
  let (sx, st4) := expressionP f st3
  let st5 := matchTokenP .Comma st4
  let (sy, st6) := expressionP f st5
  let st7 := matchTokenP .R_bracket st6
  (.scale sx sy, st7)

/-- Model of `rotStatement()`. -/
def rotStatementP (f : ℕ) (st : PState) : Stmt × PState :=
  let st1 := matchTokenP .Rot st
  let st2 := matchTokenP .Assign st1
  let (a, st3) := expressionP f st2
  (.rot a, st3)

/-- Model of `forStatement()`. -/
def forStatementP (f : ℕ) (st : PState) : Stmt × PState :=
  let st1 := matchTokenP .For st
  let st2 := matchTokenP .T st1
  let st3 := matchTokenP .From st2
  let (s, st4) := expressionP f st3
  let st5 := matchTokenP .To st4
  let (e, st6) := expressionP f st5
  let st7 := matchTokenP .Step st6
  let (stp, st8) := expressionP f st7
  let st9 := matchTokenP .Draw st8
  let st10 := matchTokenP .L_bracket st9
  let (x, st11) := expressionP f st10
  let st12 := matchTokenP .Comma st11
  let (y, st13) := expressionP f st12
  let st14 := matchTokenP .R_bracket st13
  (.forDraw s e stp x y, st14)

/-- Model of `colorStatement()`: RGB triple or a color name (the current token is
    consumed verbatim as the name). -/
def colorStatementP (f : ℕ) (st : PState) : Stmt × PState :=
  let st1 := matchTokenP .Color st
  let st2 := matchTokenP .Assign st1
  if checkT st2 .L_bracket then
    let st3 := matchTokenP .L_bracket st2
    let (r, st4) := expressionP f st3
    let st5 := matchTokenP .Comma st4
    let (g, st6) := expressionP f st5
    let st7 := matchTokenP .Comma st6
    let (b, st8) := expressionP f st7
    let st9 := matchTokenP .R_bracket st8
    (.colorRGB r g b, st9)
  else
    (.colorName (curTok st2).lexeme, fetchP st2)

/-- Model of `sizeStatement()`: the size keyword is consumed with a plain fetch;
    either one expression or a parenthesized pair. -/
def sizeStatementP (f : ℕ) (st : PState) : Stmt × PState :=
  let st1 := fetchP st
  let st2 := matchTokenP .Assign st1
  if checkT st2 .L_bracket then
    let st3 := matchTokenP .L_bracket st2
    let (w, st4) := expressionP f st3
    let st5 := matchTokenP .Comma st4
    let (h, st6) := expressionP f st5
    let st7 := matchTokenP .R_bracket st6
    (.size w (some h), st7)
  else
    let (s, st3) := expressionP f st2
    (.size s none, st3)

/-- Model of `statement()`: dispatch on the current keyword; the default branch
    re-checks the upper-cased lexeme for the `SIZE` alias spellings;
    anything else produces no statement (and consumes nothing). -/
def statementP (f : ℕ) (st : PState) : Option Stmt × PState :=
  let t := curTok st
  if t.type = .Keyword then
    match t.kw with
    | .Origin => let (s, st') := originStatementP f st; (some s, st')
    | .Scale => let (s, st') := scaleStatementP f st; (some s, st')
    | .Rot => let (s, st') := rotStatementP f st; (some s, st')
    | .For => let (s, st') := forStatementP f st; (some s, st')
    | .Color => let (s, st') := colorStatementP f st; (some s, st')
    | .Size => let (s, st') := sizeStatementP f st; (some s, st')
    | _ =>
        let upper := toUpperL t.lexeme
        if upper = bs "SIZE" ∨ upper = bs "PIXSIZE" ∨
            upper = bs "PIXELSIZE" ∨ upper = bs "PIX" then
          let (s, st') := sizeStatementP f st
          (some s, st')
        else (none, st)
  else (none, st)

/-- The `while` loop of `program()`: parse a statement; a statement
    finished right at `Eof` (missing final `';'`) is discarded rather
    than added; then match the semicolon. -/
def programLoopP (f : ℕ) : ℕ → List Stmt → PState → List Stmt × PState
  | 0, acc, st => (acc.reverse, st)
  | fuel + 1, acc, st =>
      if (curTok st).type = .Eof then (acc.reverse, st)
      else
        let (stmtO, st1) := statementP f st
        let acc' :=
          match stmtO with
          | some s => if (curTok st1).type = .Eof then acc else s :: acc
          | none => acc
        let st2 := matchTokenP .Semico st1
        programLoopP f fuel acc' st2

/-- Recursion fuel amply covering the descent depth of a token list
    (the C++ parser's recursion is bounded by the grammar's nesting,
    at most a handful of levels per consumed token). -/
def pFuel (toks : List Token) : ℕ := 8 * toks.length + 64

/-- Model of `parse()`: always returns a (possibly empty) statement list together
    with the final parser state; there is no null or aborting outcome. -/
def parseP (toks : List Token) : List Stmt × PState :=
  programLoopP (pFuel toks) (toks.length + 1) [] (initP toks)

/-- Model of `expression()` run on a full token stream, as the statement parsers
    invoke it. -/
def parseExpression (toks : List Token) : Expr :=
  (expressionP (pFuel toks) (initP toks)).1

/-- The whole front end on a byte string (table-driven automaton, as
    `DrawLangInterpreter::executeFromString` constructs it). -/
def parseSource (input : List Byte) : List Stmt × PState :=
  parseP (tokenizeTable input)

/-! ## Expression evaluation (`DrawLangAST.cpp` / `DrawLangAST.hpp`)

`double` arithmetic is idealized as real arithmetic; `std::pow` is real
exponentiation (`Real.rpow`), the bound math functions are their real
counterparts. -/

noncomputable def applyFn : MathFn → ℝ → ℝ
  | .sin => Real.sin
  | .cos => Real.cos
  | .tan => Real.tan
  | .ln => Real.log
  | .exp => Real.exp
  | .sqrt => Real.sqrt
  | .abs => fun x => |x|
  | .asin => Real.arcsin
  | .acos => Real.arccos
  | .atan => Real.arctan
  | .log10 => fun x => Real.logb 10 x
  | .ceil => fun x => (⌈x⌉ : ℝ)
  | .floor => fun x => (⌊x⌋ : ℝ)

/-- Model of `value()` of the expression nodes, with the shared loop cell passed
    as `t`: `BinaryExprNode::value` (division by exactly zero yields
    zero), `UnaryExprNode::value` (minus negates, anything else passes
    through), `FuncCallExprNode::value` (null pointer yields zero),
    `ConstExprNode::value`, `ParamExprNode::value`. -/
noncomputable def evalExpr : Expr → ℝ → ℝ
  | .const v, _ => (v : ℝ)
  | .param, t => t
  | .binary op l r, t =>
      let lv := evalExpr l t
      let rv := evalExpr r t
      match op with
      | .Plus => lv + rv
      | .Minus => lv - rv
      | .Mul => lv * rv
      | .Div => if rv ≠ 0 then lv / rv else 0
      | .Power => Real.rpow lv rv
      | _ => 0
  | .unary op e, t => if op = .Minus then -(evalExpr e t) else evalExpr e t
  | .funcCall f arg, t =>
      match f with
      | some fn => applyFn fn (evalExpr arg t)
      | none => 0

/-! ## Semantic analyzer (`DrawLangSemantic.cpp`, `DrawLangSemantic.hpp`,
`ErrorLog.cpp`) -/

/-- Model of `PixelAttribute`: `r`, `g`, `b` are `unsigned char` (hence always in
    `[0,255]`), `size` a `double`. -/
structure Pen where
  r : ℕ
  g : ℕ
  b : ℕ
  size : ℝ

/-- Model of `static_cast<unsigned char>(std::clamp(x, 0.0, 255.0))`: clamp, then
    truncate (truncation of a nonnegative value is the floor). -/
noncomputable def clampByte (x : ℝ) : ℕ := (⌊max 0 (min x 255)⌋).toNat

/-- Model of `PixelAttribute::setColor(double, double, double)`. -/
noncomputable def Pen.setColorD (p : Pen) (red green blue : ℝ) : Pen :=
  { p with r := clampByte red, g := clampByte green, b := clampByte blue }

/-- Model of `PixelAttribute::setSize`. -/
noncomputable def Pen.setSizeD (p : Pen) (s : ℝ) : Pen :=
  { p with size := if s > 0 then s else 1 }

/-- The interpreter state of `DrawLangSemanticAnalyzer` (origin, scale,
    rotation, shared loop cell `tStorage_`, pen). -/
structure AnalyzerState where
  originX : ℝ
  originY : ℝ
  scaleX : ℝ
  scaleY : ℝ
  rotAngle : ℝ
  tStorage : ℝ
  attr : Pen

/-- The state after the constructor: field initializers `0,0,1,1,0,0`,
    default pen, then `setColor(getDefaultColor())` = red. -/
noncomputable def initState : AnalyzerState :=
  { originX := 0, originY := 0, scaleX := 1, scaleY := 1, rotAngle := 0,
    tStorage := 0,
    attr := Pen.setColorD ⟨255, 0, 0, 1⟩ 255 0 0 }

/-- The observable `ErrorLog` singleton state: the counters
    `errorCount_` / `warningCount_` and the lengths of the recorded
    `errors_` / `warnings_` vectors. -/
structure ErrLogState where
  errorCount : ℕ
  warningCount : ℕ
  errorsRecorded : ℕ
  warningsRecorded : ℕ
  deriving DecidableEq, Repr

/-- Model of `ErrorLog::errorAt`: bumps the counter and records the error. -/
def ErrLogState.errorAt (e : ErrLogState) : ErrLogState :=
  { e with errorCount := e.errorCount + 1, errorsRecorded := e.errorsRecorded + 1 }

/-- Model of `ErrLog::error_msg(fmt, ...)` forwards to the `ErrorLog::error`
    template, which bumps `errorCount_` and logs, but does not append to
    `errors_`. -/
def ErrLogState.errorMsg (e : ErrLogState) : ErrLogState :=
  { e with errorCount := e.errorCount + 1 }

/-- Model of `ErrorLog::warnAt`: bumps the counter and records the warning. -/
def ErrLogState.warnAt (e : ErrLogState) : ErrLogState :=
  { e with warningCount := e.warningCount + 1, warningsRecorded := e.warningsRecorded + 1 }

/-- The transform pipeline of `calcCoord` on an already-computed raw
    point: scale, clockwise rotation, translation — in that order. -/
noncomputable def transformPoint (a : AnalyzerState) (x y : ℝ) : ℝ × ℝ :=
  let xs := x * a.scaleX
  let ys := y * a.scaleY
  let cosA := Real.cos a.rotAngle
  let sinA := Real.sin a.rotAngle
  let xr := xs * cosA + ys * sinA
  let yr := ys * cosA - xs * sinA
  (xr + a.originX, yr + a.originY)

/-- Model of `DrawLangSemanticAnalyzer::calcCoord`: evaluate the two coordinate
    trees at the current loop cell, then transform. -/
noncomputable def calcCoord (a : AnalyzerState) (xE yE : Expr) : ℝ × ℝ :=
  transformPoint a (evalExpr xE a.tStorage) (evalExpr yE a.tStorage)

/-- The `for (tStorage_ = startVal; tStorage_ <= endVal;
    tStorage_ += stepVal)` loop, as the list of loop-cell values at which
    the body runs plus the final value of the cell.  `none` means the
    fuel ran out before the C++ loop would have exited. -/
noncomputable def loopRun : ℕ → ℝ → ℝ → ℝ → Option (List ℝ × ℝ)
  | 0, _, _, _ => none
  | fuel + 1, t, e, stp =>
      if t ≤ e then
        match loopRun fuel (t + stp) e stp with
        | some (ts, tf) => some (t :: ts, tf)
        | none => none
      else some ([], t)

/-- One emitted draw call: the transformed coordinates and the pen
    passed to `drawCallback_`. -/
abbrev DrawCall := ℝ × ℝ × Pen

/-- Model of `DrawLangSemanticAnalyzer::drawLoop` on already-evaluated
    `startVal`, `endVal`, `stepVal`: a zero step records one error and
    aborts; a direction mismatch logs a warning through `spdlog::warn`
    (which touches no `ErrorLog` state) and runs nothing; otherwise the
    loop steps the shared cell, calling `calcCoord` and `drawPixel` once
    per iteration. -/
noncomputable def drawLoopM (fuel : ℕ) (startVal endVal stepVal : ℝ)
    (xE yE : Expr) (a : AnalyzerState) (el : ErrLogState) :
    Option (AnalyzerState × ErrLogState × List DrawCall) :=
  if stepVal = 0 then
    some (a, el.errorMsg, [])
  else if (stepVal > 0 ∧ startVal > endVal) ∨ (stepVal < 0 ∧ startVal < endVal) then
    some (a, el, [])
  else
    match loopRun fuel startVal endVal stepVal with
    | some (ts, tf) =>
        some ({ a with tStorage := tf }, el,
          ts.map fun t =>
            let p := calcCoord { a with tStorage := t } xE yE
            (p.1, p.2, a.attr))
    | none => none

/-- The named-color table of `ColorMap`, keyed by upper-case name. -/
def colorMap : List (List Byte × ℕ × ℕ × ℕ) :=
  [ (bs "RED", 255, 0, 0), (bs "GREEN", 0, 255, 0), (bs "BLUE", 0, 0, 255),
    (bs "BLACK", 0, 0, 0), (bs "WHITE", 255, 255, 255),
    (bs "YELLOW", 255, 255, 0), (bs "CYAN", 0, 255, 255),
    (bs "MAGENTA", 255, 0, 255), (bs "GRAY", 128, 128, 128),
    (bs "GREY", 128, 128, 128), (bs "ORANGE", 255, 165, 0),
    (bs "PINK", 255, 192, 203), (bs "PURPLE", 128, 0, 128),
    (bs "BROWN", 139, 69, 19) ]

/-- Model of `ColorNameExprNode::getRGB`: upper-case the name, look it up,
    default to red. -/
def colorRGBof (name : List Byte) : ℕ × ℕ × ℕ :=
  match (colorMap.find? (fun e => e.1 = toUpperL name)).map (·.2) with
  | some rgb => rgb
  | none => (255, 0, 0)

/-- Model of `DrawLangSemanticAnalyzer::executeStatement` (dispatching to
    `executeOriginStmt` … `executeSizeStmt`), returning the new analyzer
    state, the new error-log state and the draw calls emitted. -/
noncomputable def executeStatement (fuel : ℕ) (stmt : Stmt)
    (a : AnalyzerState) (el : ErrLogState) :
    Option (AnalyzerState × ErrLogState × List DrawCall) :=
  match stmt with
  | .origin x y =>
      some ({ a with originX := evalExpr x a.tStorage,
                     originY := evalExpr y a.tStorage }, el, [])
  | .scale sx sy =>
      some ({ a with scaleX := evalExpr sx a.tStorage,
                     scaleY := evalExpr sy a.tStorage }, el, [])
  | .rot ang =>
      some ({ a with rotAngle := evalExpr ang a.tStorage }, el, [])
  | .forDraw s e stp x y =>
      drawLoopM fuel (evalExpr s a.tStorage) (evalExpr e a.tStorage)
        (evalExpr stp a.tStorage) x y a el
  | .colorRGB r g b =>
      let newAttr :=
        a.attr.setColorD (evalExpr r a.tStorage) (evalExpr g a.tStorage)
          (evalExpr b a.tStorage)
      some ({ a with attr := newAttr }, el, [])
  | .colorName nm =>
      let rgb := colorRGBof nm
      some ({ a with attr := a.attr.setColorD rgb.1 rgb.2.1 rgb.2.2 }, el, [])
  | .size s _ =>
      let sz := evalExpr s a.tStorage
      some (if sz ≥ 1 then { a with attr := a.attr.setSizeD sz } else a, el, [])

/-! ## Claim theorems -/

/-- C3: the table-driven and the directly-coded DFA behave identically:
    the transition functions agree on every state and character, the
    final-state classifications agree, feeding any character sequence
    from reset returns the same accept/reject booleans and leaves both
    automata with the same state classification, accepted token category
    and processed-input lexeme, and scanning any source text yields the
    same token stream regardless of the encoding selected. -/
theorem dfa_encodings_equivalent :
    (∀ (s : ℕ) (c : Byte), tableMove s c = hardMove s c) ∧
    (∀ (s : ℕ), tableStateIsFinal s = hardStateIsFinal s) ∧
    (∀ (input : List Byte),
        feedAll tableMove DFARun.reset input = feedAll hardMove DFARun.reset input) ∧
    (∀ (input : List Byte),
        classifyState tableStateIsFinal (feedAll tableMove DFARun.reset input).2.cur
          = classifyState hardStateIsFinal (feedAll hardMove DFARun.reset input).2.cur ∧
        acceptedTokenTypeD tableStateIsFinal (feedAll tableMove DFARun.reset input).2
          = acceptedTokenTypeD hardStateIsFinal (feedAll hardMove DFARun.reset input).2 ∧
        (feedAll tableMove DFARun.reset input).2.processed
          = (feedAll hardMove DFARun.reset input).2.processed) ∧
    (∀ (input : List Byte), tokenizeTable input = tokenizeHard input) := by
  have hm : tableMove = hardMove :=
    funext fun s => funext fun c => tableMove_eq_hardMove s c
  have hf : tableStateIsFinal = hardStateIsFinal :=
    funext tableStateIsFinal_eq_hard
  refine ⟨fun s c => tableMove_eq_hardMove s c, tableStateIsFinal_eq_hard,
    fun input => by rw [hm], fun input => by rw [hm, hf]; exact ⟨rfl, rfl, rfl⟩,
    fun input => by unfold tokenizeTable tokenizeHard; rw [hm, hf]⟩

/-- C4 counterexample: parsing `"ORIGIN IS (100, 200)"` (missing `';'`)
    does *not* leave an `OriginStmt` in the program: `program()` discards
    a statement that is immediately followed by end of input, so the
    returned program has zero statements (with exactly one recorded
    syntax error). -/
theorem parse_missing_semicolon_drops_statement :
    (parseSource (bs "ORIGIN IS (100, 200)")).1 = [] ∧
    (parseSource (bs "ORIGIN IS (100, 200)")).2.errs = 1 := by
  constructor <;> decide

/-- C4 amended: parsing `"ORIGIN IS (100, 200)"` still returns a
    structurally valid program — with zero statements, the completed but
    unterminated `ORIGIN` statement being discarded at end of input —
    and records exactly one syntax error; empty input yields zero
    statements and zero errors; `parse()` is total and never yields a
    null program. -/
theorem parse_missing_semicolon_result :
    (parseSource (bs "ORIGIN IS (100, 200)")).1.length = 0 ∧
    1 ≤ (parseSource (bs "ORIGIN IS (100, 200)")).2.errs ∧
    (parseSource (bs "ORIGIN IS (100, 200)")).2.errs = 1 ∧
    (parseSource (bs "")).1 = [] ∧
    (parseSource (bs "")).2.errs = 0 := by
  refine ⟨?_, ?_, ?_, ?_, ?_⟩ <;> decide

/-- C10: an identifier token that is not immediately followed by `'('`
    resolves, in `atom()`, to a constant node built by `makeExprNode`;
    when its (case-insensitive) name is neither `PI` nor `E` the node is
    `ConstExpr 0`, no error is recorded, and its `value()` is `0`. -/
theorem undefined_identifier_is_silent_zero
    (f : ℕ) (tok : Token) (rest : List Token) (st : PState)
    (hst : st.toks = tok :: rest)
    (hid : tok.type = .Identifier)
    (hclean : (rest.headD Token.eof).type ≠ .Comment ∧
              (rest.headD Token.eof).type ≠ .Invalid)
    (hnp : checkT ⟨rest, st.errs⟩ .L_bracket = false)
    (hPI : toUpperL tok.lexeme ≠ bs "PI")
    (hE : toUpperL tok.lexeme ≠ bs "E") :
    atomP (f + 1) st = (Expr.const 0, ⟨rest, st.errs⟩) ∧
    (∀ t : ℝ, evalExpr (Expr.const 0) t = 0) := by
  have hfetch : fetchP st = ⟨rest, st.errs⟩ := by
    rw [fetchP, hst]
    cases rest with
    | nil => rfl
    | cons r rs =>
        simp only [List.headD_cons] at hclean
        simp [skipBad, hclean.1, hclean.2]
  constructor
  · rw [atomP]
    have h1 : ¬ (tok.type = TokenType.Literal) := by rw [hid]; intro h; cases h
    have h2 : checkT st .T = false := by
      unfold checkT curTok; rw [hst]; simp [hid]
    have h3 : checkT st .Func = false := by
      unfold checkT curTok; rw [hst]; simp [hid]
    have h4 : checkT st .L_bracket = false := by
      unfold checkT curTok; rw [hst]; simp [hid]
    have hcur : curTok st = tok := by unfold curTok; rw [hst]; rfl
    rw [hcur]
    simp only [h1, h2, h3, h4, hid, if_false, if_true, Bool.false_eq_true,
      reduceIte, hfetch, hnp]
    unfold makeExprNode
    simp [hid, hPI, hE]
  · intro t
    simp [evalExpr]

/-- C10 witness: the undefined name `foo` ahead of `Eof` becomes a
    zero-valued constant with no recorded error. -/
theorem undefined_identifier_is_silent_zero_witness :
    atomP 1 ⟨[⟨.Identifier, bs "foo", .None, false⟩, Token.eof], 0⟩ =
      (Expr.const 0, ⟨[Token.eof], 0⟩) ∧
    (∀ t : ℝ, evalExpr (Expr.const 0) t = 0) :=
  undefined_identifier_is_silent_zero 0 ⟨.Identifier, bs "foo", .None, false⟩
    [Token.eof] ⟨[⟨.Identifier, bs "foo", .None, false⟩, Token.eof], 0⟩
    rfl rfl (by constructor <;> decide) (by decide) (by decide) (by decide)

/-- C7: `BinaryExprNode::value` with the division operator returns the
    left value divided by the right value when the divisor is not
    exactly zero, and returns `0` when the divisor is exactly zero. -/
theorem division_by_exact_zero_yields_zero (l r : Expr) (t : ℝ) :
    (evalExpr r t ≠ 0 →
        evalExpr (.binary .Div l r) t = evalExpr l t / evalExpr r t) ∧
    (evalExpr r t = 0 → evalExpr (.binary .Div l r) t = 0) := by
  constructor <;> intro h <;> simp [evalExpr, h]

/-- C7 witness: `6/3` evaluates to `2` and `1/0` evaluates to `0`. -/
theorem division_by_exact_zero_yields_zero_witness :
    evalExpr (.binary .Div (.const 6) (.const 3)) 0 = 2 ∧
    evalExpr (.binary .Div (.const 1) (.const 0)) 0 = 0 := by
  constructor
  · have h := (division_by_exact_zero_yields_zero (.const 6) (.const 3) 0).1
      (by simp [evalExpr])
    rw [h]; simp [evalExpr]; norm_num
  · exact (division_by_exact_zero_yields_zero (.const 1) (.const 0) 0).2
      (by simp [evalExpr])

/-- A single decimal digit parses to its value. -/
theorem parseLit_single (c : Byte) (h : isDigByte c = true) :
    parseLit [c] = ((c.val - 48 : ℕ) : ℚ) := by
  unfold parseLit
  simp [List.takeWhile, List.dropWhile, h, digitsVal]

theorem parseLit_two : parseLit (bs "2") = 2 := by
  rw [show bs "2" = [(50 : Byte)] from by decide, parseLit_single _ (by decide),
    show (50 : Byte).val - 48 = 2 from by decide]
  norm_num

theorem parseLit_three : parseLit (bs "3") = 3 := by
  rw [show bs "3" = [(51 : Byte)] from by decide, parseLit_single _ (by decide),
    show (51 : Byte).val - 48 = 3 from by decide]
  norm_num

theorem parseLit_four : parseLit (bs "4") = 4 := by
  rw [show bs "4" = [(52 : Byte)] from by decide, parseLit_single _ (by decide),
    show (52 : Byte).val - 48 = 4 from by decide]
  norm_num

/-- C8: precedence and associativity of the expression grammar, via the
    full scanner-parser-evaluator pipeline: `2+3*4 = 14`, `2*3+4 = 10`,
    `2**3**2 = 512` (right-associative power), and `-2**2 = -4` (the
    unary minus wraps the whole power component). -/
theorem expression_precedence_associativity :
    evalExpr (parseExpression (tokenizeTable (bs "2+3*4"))) 0 = 14 ∧
    evalExpr (parseExpression (tokenizeTable (bs "2*3+4"))) 0 = 10 ∧
    evalExpr (parseExpression (tokenizeTable (bs "2**3**2"))) 0 = 512 ∧
    evalExpr (parseExpression (tokenizeTable (bs "-2**2"))) 0 = -4 := by
  have t1 : parseExpression (tokenizeTable (bs "2+3*4")) =
      .binary .Plus (.const (parseLit (bs "2")))
        (.binary .Mul (.const (parseLit (bs "3"))) (.const (parseLit (bs "4")))) := rfl
  have t2 : parseExpression (tokenizeTable (bs "2*3+4")) =
      .binary .Plus
        (.binary .Mul (.const (parseLit (bs "2"))) (.const (parseLit (bs "3"))))
        (.const (parseLit (bs "4"))) := rfl
  have t3 : parseExpression (tokenizeTable (bs "2**3**2")) =
      .binary .Power (.const (parseLit (bs "2")))
        (.binary .Power (.const (parseLit (bs "3"))) (.const (parseLit (bs "2")))) := rfl
  have t4 : parseExpression (tokenizeTable (bs "-2**2")) =
      .unary .Minus
        (.binary .Power (.const (parseLit (bs "2"))) (.const (parseLit (bs "2")))) := rfl
  have hpow : ∀ x y : ℝ, Real.rpow x y = x ^ y := fun _ _ => rfl
  have pow32 : Real.rpow ((3 : ℝ)) ((2 : ℝ)) = 9 := by
    rw [hpow, show (2 : ℝ) = ((2 : ℕ) : ℝ) by norm_num, Real.rpow_natCast]
    norm_num
  have pow29 : Real.rpow ((2 : ℝ)) (9 : ℝ) = 512 := by
    rw [hpow, show (9 : ℝ) = ((9 : ℕ) : ℝ) by norm_num, Real.rpow_natCast]
    norm_num
  have pow22 : Real.rpow ((2 : ℝ)) ((2 : ℝ)) = 4 := by
    rw [hpow, show (2 : ℝ) = ((2 : ℕ) : ℝ) by norm_num, Real.rpow_natCast]
    norm_num
  refine ⟨?_, ?_, ?_, ?_⟩
  · rw [t1, parseLit_two, parseLit_three, parseLit_four]
    simp only [evalExpr]
    push_cast
    norm_num
  · rw [t2, parseLit_two, parseLit_three, parseLit_four]
    simp only [evalExpr]
    push_cast
    norm_num
  · rw [t3, parseLit_two, parseLit_three]
    simp only [evalExpr]
    push_cast
    rw [pow32, pow29]
  · rw [t4, parseLit_two]
    simp only [evalExpr, reduceIte]
    push_cast
    rw [pow22]

/-- C2: the transform pipeline applies, in order, scale, the clockwise
    rotation `x' = x·cosθ + y·sinθ, y' = y·cosθ − x·sinθ`, and the
    translation by the origin; consequently with origin `(100,200)`,
    scale `(1,1)`, rotation `0` the raw point `(0,0)` lands exactly at
    `(100,200)`, and with rotation `π/2`, origin `(0,0)`, scale `(1,1)`
    the raw point `(1,0)` lands exactly at `(0,−1)`; `calcCoord` feeds
    the evaluated raw coordinates of the loop body through this
    pipeline. -/
theorem transform_pipeline_order :
    (∀ (a : AnalyzerState) (x y : ℝ),
        transformPoint a x y =
          (x * a.scaleX * Real.cos a.rotAngle + y * a.scaleY * Real.sin a.rotAngle
             + a.originX,
           y * a.scaleY * Real.cos a.rotAngle - x * a.scaleX * Real.sin a.rotAngle
             + a.originY)) ∧
    (∀ (a : AnalyzerState) (xE yE : Expr),
        calcCoord a xE yE =
          transformPoint a (evalExpr xE a.tStorage) (evalExpr yE a.tStorage)) ∧
    transformPoint { initState with originX := 100, originY := 200 } 0 0
      = (100, 200) ∧
    transformPoint { initState with rotAngle := Real.pi / 2 } 1 0 = (0, -1) := by
  refine ⟨fun a x y => rfl, fun a xE yE => rfl, ?_, ?_⟩
  · simp [transformPoint, initState]
  · simp [transformPoint, initState]

/-- C5: a `ForDrawStmt` whose step expression evaluates to exactly zero
    performs zero draw calls, aborts the loop, leaves the whole
    interpreter state (origin, scale, rotation, pen, loop cell)
    unchanged, and records exactly one error: the error counter grows by
    one and nothing else in the error log changes. -/
theorem zero_step_aborts_with_one_error
    (fuel : ℕ) (s e stp x y : Expr) (a : AnalyzerState) (el : ErrLogState)
    (h : evalExpr stp a.tStorage = 0) :
    executeStatement fuel (.forDraw s e stp x y) a el =
      some (a, { el with errorCount := el.errorCount + 1 }, []) := by
  simp [executeStatement, drawLoopM, h, ErrLogState.errorMsg]

/-- C5 witness: `FOR T FROM 0 TO 1 STEP 0 DRAW (T, T)` from the default
    state records one error and draws nothing. -/
theorem zero_step_aborts_with_one_error_witness :
    executeStatement 0 (.forDraw (.const 0) (.const 1) (.const 0) .param .param)
        initState ⟨0, 0, 0, 0⟩ =
      some (initState, ⟨1, 0, 0, 0⟩, []) :=
  zero_step_aborts_with_one_error 0 (.const 0) (.const 1) (.const 0) .param .param
    initState ⟨0, 0, 0, 0⟩ (by simp [evalExpr])

/-- C6 counterexample: a sign mismatch (`step = 1` with `start = 1 >
    end = 0`) runs zero iterations and zero draw calls, but the warning
    goes through `spdlog::warn` only: the queryable `ErrorLog` warning
    count does *not* increase (it stays `0`), contradicting the claim
    that the queryable warning count grows. -/
theorem sign_mismatch_does_not_bump_warning_count :
    executeStatement 0 (.forDraw (.const 1) (.const 0) (.const 1) .param .param)
        initState ⟨0, 0, 0, 0⟩ =
      some (initState, ⟨0, 0, 0, 0⟩, []) ∧
    (⟨0, 0, 0, 0⟩ : ErrLogState).warningCount = 0 := by
  constructor
  · simp only [executeStatement, drawLoopM]
    rw [if_neg (by simp [evalExpr]), if_pos]
    simp [evalExpr]
  · rfl

/-- C6 amended: a nonzero step whose sign mismatches the direction from
    start to end executes zero iterations and zero draw calls; a warning
    message is emitted only to the diagnostic text sink (`spdlog`), so
    neither the queryable warning count nor the error count (nor any
    recorded-diagnostic list, nor the interpreter state) changes. -/
theorem sign_mismatch_runs_zero_iterations
    (fuel : ℕ) (s e stp x y : Expr) (a : AnalyzerState) (el : ErrLogState)
    (hnz : evalExpr stp a.tStorage ≠ 0)
    (hmis : (evalExpr stp a.tStorage > 0 ∧ evalExpr s a.tStorage > evalExpr e a.tStorage) ∨
            (evalExpr stp a.tStorage < 0 ∧ evalExpr s a.tStorage < evalExpr e a.tStorage)) :
    executeStatement fuel (.forDraw s e stp x y) a el = some (a, el, []) := by
  simp only [executeStatement, drawLoopM]
  rw [if_neg hnz, if_pos hmis]

/-- C6 witness: the mismatch `start = 1, end = 0, step = 1` leaves state
    and diagnostics untouched and draws nothing. -/
theorem sign_mismatch_runs_zero_iterations_witness :
    executeStatement 0 (.forDraw (.const 1) (.const 0) (.const 1) .param .param)
        initState ⟨2, 3, 4, 5⟩ =
      some (initState, ⟨2, 3, 4, 5⟩, []) :=
  sign_mismatch_runs_zero_iterations 0 (.const 1) (.const 0) (.const 1) .param .param
    initState ⟨2, 3, 4, 5⟩ (by simp [evalExpr]) (by simp [evalExpr])

/-- One unfolding step of the loop. -/
theorem loopRun_succ (fuel : ℕ) (t e stp : ℝ) :
    loopRun (fuel + 1) t e stp =
      if t ≤ e then
        match loopRun fuel (t + stp) e stp with
        | some (ts, tf) => some (t :: ts, tf)
        | none => none
      else some ([], t) := rfl

/-- For a positive step and `start ≤ end`, the C++ loop terminates after
    exactly `⌊(end − start)/step⌋ + 1` body evaluations, visiting the
    arithmetic progression in order and leaving the cell one step past
    the last visited value. -/
theorem loopRun_pos_spec :
    ∀ (n : ℕ) (s e stp : ℝ), 0 < stp → s ≤ e →
      n = (⌊(e - s) / stp⌋).toNat →
      loopRun (n + 2) s e stp =
        some ((List.range (n + 1)).map (fun (k : ℕ) => s + (k : ℝ) * stp),
              s + ((n : ℝ) + 1) * stp) := by
  intro n
  induction n with
  | zero =>
      intro s e stp hstp hse hn
      have h0 : (0 : ℝ) ≤ (e - s) / stp :=
        div_nonneg (by linarith) hstp.le
      have hfl0 : ⌊(e - s) / stp⌋ = 0 := by
        have := Int.floor_nonneg.mpr h0
        omega
      have hlt1 : (e - s) / stp < 1 := by
        have := Int.lt_floor_add_one ((e - s) / stp)
        rw [hfl0] at this
        simpa using this
      have hnot : ¬ (s + stp ≤ e) := by
        have : e - s < stp := (div_lt_one hstp).mp hlt1
        linarith
      rw [show (0 : ℕ) + 2 = 1 + 1 from rfl, loopRun_succ, if_pos hse,
        loopRun_succ, if_neg hnot, show List.range 1 = [0] from rfl]
      norm_num
  | succ m ih =>
      intro s e stp hstp hse hn
      have hfl : 1 ≤ ⌊(e - s) / stp⌋ := by omega
      have hge1 : (1 : ℝ) ≤ (e - s) / stp := by
        exact_mod_cast Int.le_floor.mp hfl
      have hse2 : s + stp ≤ e := by
        have h1 : 1 * stp ≤ e - s := (le_div_iff₀ hstp).mp hge1
        linarith
      have hquot : (e - (s + stp)) / stp = (e - s) / stp - 1 := by
        field_simp
        ring
      have hn' : m = (⌊(e - (s + stp)) / stp⌋).toNat := by
        rw [hquot, Int.floor_sub_one]
        omega
      have hrec := ih (s + stp) e stp hstp hse2 hn'
      rw [show m + 1 + 2 = (m + 2) + 1 from rfl, loopRun_succ, if_pos hse,
        hrec]
      have hlist : ((List.range (m + 1 + 1)).map fun (k : ℕ) => s + (k : ℝ) * stp)
          = s :: ((List.range (m + 1)).map fun (k : ℕ) => (s + stp) + (k : ℝ) * stp) := by
        rw [List.range_succ_eq_map]
        simp only [List.map_cons, List.map_map, Nat.cast_zero, zero_mul,
          add_zero, List.cons.injEq, true_and]
        apply List.map_congr_left
        intro k _
        simp only [Function.comp_apply]
        push_cast
        ring
      rw [hlist]
      have hfin : (s + stp) + ((m : ℝ) + 1) * stp = s + (((m : ℕ) + 1 : ℕ) + 1 : ℝ) * stp := by
        push_cast
        ring
      rw [hfin]

/-- C1 counterexample: a descending loop whose step sign matches the
    direction (`start = 5 > end = 0`, `step = −1 ≠ 0`) performs *zero*
    draw calls — the loop condition `tStorage_ <= endVal` is false at the
    very first test — instead of the six calls at `5,4,3,2,1,0` the
    claim demands. -/
theorem descending_loop_never_draws :
    drawLoopM 1 5 0 (-1) .param .param initState ⟨0, 0, 0, 0⟩ =
      some ({ initState with tStorage := 5 }, ⟨0, 0, 0, 0⟩, []) ∧
    (-1 : ℝ) ≠ 0 ∧ (-1 : ℝ) < 0 ∧ (0 : ℝ) < 5 := by
  refine ⟨?_, by norm_num, by norm_num, by norm_num⟩
  unfold drawLoopM
  rw [if_neg (by norm_num), if_neg (by rintro (⟨h, -⟩ | ⟨-, h⟩) <;> norm_num at h)]
  rw [loopRun_succ, if_neg (by norm_num)]
  simp

/-- C1 amended: for a ForDrawStmt whose evaluated step is positive and
    start ≤ end, execution sets the shared loop cell to `t` and invokes
    the draw callback exactly once for each
    `t = start, start+step, …` while `t ≤ end` (equivalently
    `t = start + k·step` for `k = 0 … ⌊(end−start)/step⌋`), in iteration
    order, leaving the cell one step beyond; a nonzero negative step with
    `start > end` (sign matching the descending direction) executes zero
    iterations because the loop condition `t ≤ end` fails immediately.
    In particular `start=0, end=5, step=1` produces exactly 6 draw calls
    with parameter values `0,1,2,3,4,5` in order. -/
theorem ascending_loop_draws_each_value :
    (∀ (s e stp : ℝ) (xE yE : Expr) (a : AnalyzerState) (el : ErrLogState),
      0 < stp → s ≤ e →
      drawLoopM ((⌊(e - s) / stp⌋).toNat + 2) s e stp xE yE a el =
        some ({ a with
                  tStorage := s + (((⌊(e - s) / stp⌋).toNat : ℝ) + 1) * stp }, el,
          ((List.range ((⌊(e - s) / stp⌋).toNat + 1)).map
              fun (k : ℕ) => s + (k : ℝ) * stp).map
            fun t => ((calcCoord { a with tStorage := t } xE yE).1,
                      (calcCoord { a with tStorage := t } xE yE).2, a.attr))) ∧
    drawLoopM 7 0 5 1 .param .param initState ⟨0, 0, 0, 0⟩ =
      some ({ initState with tStorage := 6 }, ⟨0, 0, 0, 0⟩,
        [(0, 0, initState.attr), (1, 1, initState.attr), (2, 2, initState.attr),
         (3, 3, initState.attr), (4, 4, initState.attr), (5, 5, initState.attr)]) := by
  have main : ∀ (s e stp : ℝ) (xE yE : Expr) (a : AnalyzerState) (el : ErrLogState),
      0 < stp → s ≤ e →
      drawLoopM ((⌊(e - s) / stp⌋).toNat + 2) s e stp xE yE a el =
        some ({ a with
                  tStorage := s + (((⌊(e - s) / stp⌋).toNat : ℝ) + 1) * stp }, el,
          ((List.range ((⌊(e - s) / stp⌋).toNat + 1)).map
              fun (k : ℕ) => s + (k : ℝ) * stp).map
            fun t => ((calcCoord { a with tStorage := t } xE yE).1,
                      (calcCoord { a with tStorage := t } xE yE).2, a.attr)) := by
    intro s e stp xE yE a el hstp hse
    unfold drawLoopM
    rw [if_neg hstp.ne', if_neg (by
      rintro (⟨-, h⟩ | ⟨h, -⟩)
      · exact absurd hse (not_le.mpr h)
      · exact absurd hstp (not_lt.mpr h.le))]
    rw [loopRun_pos_spec _ s e stp hstp hse rfl]
  refine ⟨main, ?_⟩
  have h := main 0 5 1 .param .param initState ⟨0, 0, 0, 0⟩ (by norm_num) (by norm_num)
  have hfl : (⌊((5 : ℝ) - 0) / 1⌋).toNat = 5 := by
    norm_num
    rfl
  rw [hfl] at h
  rw [h]
  have hcoord : ∀ t : ℝ,
      calcCoord { initState with tStorage := t } .param .param = (t, t) := by
    intro t
    simp [calcCoord, transformPoint, evalExpr, initState]
  norm_num [List.range_succ, hcoord]

/-- C1 witness: the ascending-loop theorem instantiated at
    `start=0, end=5, step=1` from the default state. -/
theorem ascending_loop_draws_each_value_witness :
    drawLoopM ((⌊((5 : ℝ) - 0) / 1⌋).toNat + 2) 0 5 1 .param .param
        initState ⟨0, 0, 0, 0⟩ =
      some ({ initState with
                tStorage := 0 + (((⌊((5 : ℝ) - 0) / 1⌋).toNat : ℝ) + 1) * 1 },
            ⟨0, 0, 0, 0⟩,
        ((List.range ((⌊((5 : ℝ) - 0) / 1⌋).toNat + 1)).map
            fun (k : ℕ) => 0 + (k : ℝ) * 1).map
          fun t => ((calcCoord { initState with tStorage := t } .param .param).1,
                    (calcCoord { initState with tStorage := t } .param .param).2,
                    initState.attr)) :=
  ascending_loop_draws_each_value.1 0 5 1 .param .param initState ⟨0, 0, 0, 0⟩
    (by simp) (by simp)

/-- The pen invariant of the claim: each color channel in `[0,255]` and
    a size of at least `1`. -/
def PenInv (p : Pen) : Prop :=
  p.r ≤ 255 ∧ p.g ≤ 255 ∧ p.b ≤ 255 ∧ 1 ≤ p.size

/-- The clamped, truncated color cast always lands in `[0,255]`. -/
theorem clampByte_le (x : ℝ) : clampByte x ≤ 255 := by
  unfold clampByte
  have h1 : max 0 (min x 255) ≤ 255 := max_le (by norm_num) (min_le_right _ _)
  have h2 : ⌊max 0 (min x 255)⌋ ≤ 255 := by
    have := Int.floor_le_floor h1
    simpa using this
  omega

theorem penInv_initState : PenInv initState.attr :=
  ⟨clampByte_le _, clampByte_le _, clampByte_le _, le_refl 1⟩

/-- C9: the pen invariant (`r`,`g`,`b ∈ [0,255]`, `size ≥ 1`) holds at
    construction — where the defaults are origin `(0,0)`, scale `(1,1)`,
    rotation `0`, pen red `(255,0,0)`, size `1` — and is preserved by
    executing every statement; a `SizeStmt` whose value evaluates below
    `1` leaves the whole state unchanged and records nothing; `ColorStmt`
    channels are clamped into `[0,255]`. -/
theorem pen_invariant_preserved :
    (initState.originX = 0 ∧ initState.originY = 0 ∧ initState.scaleX = 1 ∧
     initState.scaleY = 1 ∧ initState.rotAngle = 0 ∧
     initState.attr.r = 255 ∧ initState.attr.g = 0 ∧ initState.attr.b = 0 ∧
     initState.attr.size = 1 ∧ PenInv initState.attr) ∧
    (∀ (fuel : ℕ) (stmt : Stmt) (a : AnalyzerState) (el : ErrLogState)
        (a' : AnalyzerState) (el' : ErrLogState) (ds : List DrawCall),
        PenInv a.attr → executeStatement fuel stmt a el = some (a', el', ds) →
        PenInv a'.attr) ∧
    (∀ (fuel : ℕ) (sE : Expr) (e2 : Option Expr) (a : AnalyzerState)
        (el : ErrLogState), evalExpr sE a.tStorage < 1 →
        executeStatement fuel (.size sE e2) a el = some (a, el, [])) := by
  refine ⟨?_, ?_, ?_⟩
  · refine ⟨rfl, rfl, rfl, rfl, rfl, ?_, ?_, ?_, rfl, penInv_initState⟩
    · show clampByte 255 = 255
      unfold clampByte
      norm_num
      rfl
    · show clampByte 0 = 0
      unfold clampByte
      norm_num
    · show clampByte 0 = 0
      unfold clampByte
      norm_num
  · intro fuel stmt a el a' el' ds hInv hexec
    cases stmt with
    | origin x y =>
        simp only [executeStatement, Option.some.injEq, Prod.mk.injEq] at hexec
        obtain ⟨rfl, -, -⟩ := hexec
        exact hInv
    | scale sx sy =>
        simp only [executeStatement, Option.some.injEq, Prod.mk.injEq] at hexec
        obtain ⟨rfl, -, -⟩ := hexec
        exact hInv
    | rot ang =>
        simp only [executeStatement, Option.some.injEq, Prod.mk.injEq] at hexec
        obtain ⟨rfl, -, -⟩ := hexec
        exact hInv
    | forDraw sE eE stpE xE yE =>
        simp only [executeStatement] at hexec
        unfold drawLoopM at hexec
        split_ifs at hexec with h1 h2
        · simp only [Option.some.injEq, Prod.mk.injEq] at hexec
          obtain ⟨rfl, -, -⟩ := hexec
          exact hInv
        · simp only [Option.some.injEq, Prod.mk.injEq] at hexec
          obtain ⟨rfl, -, -⟩ := hexec
          exact hInv
        · cases hlr : loopRun fuel (evalExpr sE a.tStorage) (evalExpr eE a.tStorage)
              (evalExpr stpE a.tStorage) with
          | none => rw [hlr] at hexec; cases hexec
          | some p =>
              rw [hlr] at hexec
              simp only [Option.some.injEq, Prod.mk.injEq] at hexec
              obtain ⟨rfl, -, -⟩ := hexec
              exact hInv
    | colorRGB rE gE bE =>
        simp only [executeStatement, Option.some.injEq, Prod.mk.injEq] at hexec
        obtain ⟨rfl, -, -⟩ := hexec
        exact ⟨clampByte_le _, clampByte_le _, clampByte_le _, hInv.2.2.2⟩
    | colorName nm =>
        simp only [executeStatement, Option.some.injEq, Prod.mk.injEq] at hexec
        obtain ⟨rfl, -, -⟩ := hexec
        exact ⟨clampByte_le _, clampByte_le _, clampByte_le _, hInv.2.2.2⟩
    | size sE e2 =>
        simp only [executeStatement, Option.some.injEq, Prod.mk.injEq] at hexec
        obtain ⟨rfl, -, -⟩ := hexec
        split_ifs with hsz
        · refine ⟨hInv.1, hInv.2.1, hInv.2.2.1, ?_⟩
          show (1 : ℝ) ≤ if evalExpr sE a.tStorage > 0 then evalExpr sE a.tStorage else 1
          rw [if_pos (by linarith)]
          exact hsz
        · exact hInv
  · intro fuel sE e2 a el h
    simp only [executeStatement]
    rw [if_neg (not_le.mpr h)]

/-- C9 witness: a `ROT IS 0` statement from the default state preserves
    the pen invariant. -/
theorem pen_invariant_preserved_witness :
    PenInv initState.attr ∧
    executeStatement 0 (.rot (.const 0)) initState ⟨0, 0, 0, 0⟩ =
      some ({ initState with rotAngle := evalExpr (.const 0) initState.tStorage },
            ⟨0, 0, 0, 0⟩, []) ∧
    PenInv ({ initState with
              rotAngle := evalExpr (.const 0) initState.tStorage }).attr :=
  ⟨pen_invariant_preserved.1.2.2.2.2.2.2.2.2.2, rfl,
   pen_invariant_preserved.2.1 0 (.rot (.const 0)) initState ⟨0, 0, 0, 0⟩ _ _ _
     pen_invariant_preserved.1.2.2.2.2.2.2.2.2.2 rfl⟩

end DrawLang
